import Mathlib

/-!
Verification of the request-body normalization and dispatch layer
(`src/index.ts` of `then-request`).

The embedding models the JavaScript values the library inspects
(`typeof` categories, truthiness), the three normalized body variants
(`BufferBody`, `FormBody`, `StreamBody`), the body selector
(`handleBody`), the case-insensitive header merge performed through
`caseless`, and the dispatch flow of `request` up to the transport
invocation (`http-basic` is an external collaborator; the model records
its invocation and the piping of the body into the sink it returns as
trace events).
-/

namespace ThenRequest

/-- A JS object used as a header dictionary: an ordered association list
from header name to value, as produced by `Object.keys` enumeration
order (insertion order). -/
abbrev HeaderMap := List (String × String)

/-- UTF-8 encoding of one character (what `Buffer.from(string)` does
byte-by-byte). -/
def utf8EncodeCh (c : Char) : List UInt8 :=
  let n := c.toNat
  if n < 0x80 then [UInt8.ofNat n]
  else if n < 0x800 then
    [UInt8.ofNat (0xC0 ||| (n >>> 6)), UInt8.ofNat (0x80 ||| (n &&& 0x3F))]
  else if n < 0x10000 then
    [UInt8.ofNat (0xE0 ||| (n >>> 12)), UInt8.ofNat (0x80 ||| ((n >>> 6) &&& 0x3F)),
     UInt8.ofNat (0x80 ||| (n &&& 0x3F))]
  else
    [UInt8.ofNat (0xF0 ||| (n >>> 18)), UInt8.ofNat (0x80 ||| ((n >>> 12) &&& 0x3F)),
     UInt8.ofNat (0x80 ||| ((n >>> 6) &&& 0x3F)), UInt8.ofNat (0x80 ||| (n &&& 0x3F))]

/-- The bytes of `Buffer.from(s)`: UTF-8 encoding of the string. -/
def utf8Bytes (s : String) : List UInt8 :=
  s.data.foldr (fun c acc => utf8EncodeCh c ++ acc) []

/-- `method.toUpperCase()` (ASCII, as used on HTTP verb names). -/
def toUpperStr (s : String) : String := String.mk (s.data.map Char.toUpper)

/-- `s.toLowerCase()` (ASCII, as applied to header names). -/
def lowerStr (s : String) : String := String.mk (s.data.map Char.toLower)

/-- Case-insensitive key comparison used by `caseless`. -/
def lowerEq (a b : String) : Bool := lowerStr a == lowerStr b

/-- `caseless(dict).has(key)`: some stored key matches case-insensitively. -/
def hasCI (h : HeaderMap) (k : String) : Bool := h.any (fun p => lowerEq p.1 k)

/-- `caseless(dict).get(key)`: value of the first stored key matching
case-insensitively. -/
def getCI (h : HeaderMap) (k : String) : Option String :=
  (h.find? (fun p => lowerEq p.1 k)).map (·.2)

/-- Plain JS object property assignment `dict[k] = v`: replaces the value
in place if the key is present, otherwise appends in insertion order. -/
def objSet (h : HeaderMap) (k v : String) : HeaderMap :=
  if h.any (fun p => p.1 == k) then
    h.map (fun p => if p.1 == k then (k, v) else p)
  else h ++ [(k, v)]

/-- JS values that can be passed as the `err` argument of a callback or
used as a rejection reason. `errObj msg` is `new Error(msg)`,
`typeErrObj msg` is `new TypeError(msg)`. -/
inductive ErrVal where
  | nullv
  | undefv
  | str (s : String)
  | errObj (msg : String)
  | typeErrObj (msg : String)
  | num (n : Int)
deriving DecidableEq, Repr

/-- JS truthiness of an `ErrVal`. -/
def ErrVal.truthy : ErrVal → Bool
  | .nullv => false
  | .undefv => false
  | .str s => !(s == "")
  | .num n => !(n == 0)
  | _ => true

/-- `typeof err == 'string' ? new Error(err) : err` (the wrapping applied
by `FormBody.getHeaders` before rejecting). -/
def wrapErr : ErrVal → ErrVal
  | .str s => .errObj s
  | e => e

/-- Whether a value is a proper error object (an `Error` or a subclass
such as `TypeError`), as opposed to a raw string or other value. -/
def ErrVal.isErrorObject : ErrVal → Bool
  | .errObj _ => true
  | .typeErrObj _ => true
  | _ => false

/-- JSON values assignable to `options.json`. `jundef` stands for the
field being absent/`undefined`. -/
inductive JsonVal where
  | jundef
  | jnull
  | jbool (b : Bool)
  | jnum (n : Int)
  | jstr (s : String)
  | jobjv (fields : List (String × JsonVal))

/-- JS truthiness of `options.json` (the `if (options.json)` test). -/
def JsonVal.truthy : JsonVal → Bool
  | .jundef => false
  | .jnull => false
  | .jbool b => b
  | .jnum n => !(n == 0)
  | .jstr s => !(s == "")
  | .jobjv _ => true

mutual
/-- `JSON.stringify` restricted to the modelled JSON values (strings are
assumed to need no escaping; `jundef` is never serialized by the code
because it is falsy). -/
def jsonStringify : JsonVal → String
  | .jundef => ""
  | .jnull => "null"
  | .jbool b => cond b "true" "false"
  | .jnum n => toString n
  | .jstr s => "\"" ++ s ++ "\""
  | .jobjv fields => "\x7b" ++ jsonMembers fields ++ "\x7d"
/-- Comma-separated `"key":value` members of a serialized JSON object. -/
def jsonMembers : List (String × JsonVal) → String
  | [] => ""
  | [p] => "\"" ++ p.1 ++ "\":" ++ jsonStringify p.2
  | p :: rest => "\"" ++ p.1 ++ "\":" ++ jsonStringify p.2 ++ "," ++ jsonMembers rest
end

/-- A multipart form value (`form-data`): its own headers
(`form.getHeaders()`) and the sequence of invocations its `getLength`
callback will perform, each carrying `(err, length)`. -/
structure FormVal where
  ownHeaders : HeaderMap
  lengthEvents : List (ErrVal × Int)
deriving DecidableEq

/-- JS values assignable to `options.body`. `stream id` is a non-buffer
object exposing a `pipe` function; `objNoPipe id` is any other object. -/
inductive BodyVal where
  | undef
  | nullv
  | boolv (b : Bool)
  | num (n : Int)
  | str (s : String)
  | buffer (bytes : List UInt8)
  | stream (id : Nat)
  | objNoPipe (id : Nat)
deriving DecidableEq, Repr

/-- JS truthiness of a body value (the `if (!body)` test). -/
def BodyVal.truthy : BodyVal → Bool
  | .undef => false
  | .nullv => false
  | .boolv b => b
  | .num n => !(n == 0)
  | .str s => !(s == "")
  | .buffer _ => true
  | .stream _ => true
  | .objNoPipe _ => true

/-- The recognized fields of the `Options` object consumed by the core
(fields passed through verbatim to the transport are not modelled). -/
structure Options where
  body : BodyVal := .undef
  json : JsonVal := .jundef
  form : Option FormVal := none
  headers : Option HeaderMap := none
  qs : Option (List (String × String)) := none

/-- The three normalized body variants (`BufferBody`, `FormBody`,
`StreamBody`). -/
inductive NormalizedBody where
  | bufferBody (body : List UInt8) (extraHeaders : HeaderMap)
  | formBody (f : FormVal)
  | streamBody (id : Nat)
deriving DecidableEq

/-- `handleBody`: the body selector. Mirrors the source: `form` wins;
a truthy `json` is serialized and sets a `content-type` extra header;
a string body is converted to bytes; a falsy body becomes the empty
buffer; a non-buffer body with a `pipe` function becomes a stream body;
anything else is a `TypeError`. -/
def handleBody (options : Options) : Except ErrVal NormalizedBody :=
  match options.form with
  | some f => .ok (.formBody f)
  | none =>
    let extraHeaders : HeaderMap := []
    let st :=
      if options.json.truthy then
        (objSet extraHeaders "content-type" "application/json",
         BodyVal.str (jsonStringify options.json))
      else (extraHeaders, options.body)
    let extraHeaders := st.1
    let body := st.2
    let body : BodyVal := match body with
      | .str s => .buffer (utf8Bytes s)
      | b => b
    let body := if body.truthy then body else .buffer []
    match body with
    | .buffer bs => .ok (.bufferBody bs extraHeaders)
    | .stream id => .ok (.streamBody id)
    | _ => .error (.typeErrObj "body should be a Buffer or a String")

/-- View of an `Except` as a sum, to transfer decidable equality. -/
def exceptToSum {ε α : Type} : Except ε α → ε ⊕ α
  | .error e => .inl e
  | .ok a => .inr a

instance {ε α : Type} [DecidableEq ε] [DecidableEq α] : DecidableEq (Except ε α) :=
  fun a b =>
    decidable_of_iff (exceptToSum a = exceptToSum b)
      (by cases a <;> cases b <;> simp [exceptToSum])

/-- The settlement of a body's `getHeaders()` promise. -/
inductive Settlement where
  | resolved (h : HeaderMap)
  | rejected (e : ErrVal)
deriving DecidableEq

/-- State of `FormBody.getHeaders`'s executor: the `gotLength` guard and
the settlement produced so far (a promise settles at most once). -/
structure GLState where
  gotLength : Bool
  result : Option Settlement
deriving DecidableEq

/-- One invocation of the `getLength` callback: ignored if `gotLength`
is already set; otherwise sets the guard and settles — rejecting with
the (string-wrapped) error if `err` is truthy, else resolving the form's
own headers extended with the computed `content-length`. -/
def glStep (headers : HeaderMap) (st : GLState) (ev : ErrVal × Int) : GLState :=
  if st.gotLength then st
  else
    { gotLength := true,
      result := some (if ev.1.truthy then .rejected (wrapErr ev.1)
                      else .resolved (objSet headers "content-length" (toString ev.2))) }

/-- `FormBody.getHeaders`: runs the `getLength` callback invocations
through the guard; `none` means the promise never settles (the callback
never fired). -/
def formGetHeaders (f : FormVal) : Option Settlement :=
  (f.lengthEvents.foldl (glStep f.ownHeaders) ⟨false, none⟩).result

/-- `BufferBody.getHeaders`'s resolved value:
`{'content-length': '' + body.length, ...extraHeaders}`. -/
def bufferBodyHeaders (body : List UInt8) (extra : HeaderMap) : HeaderMap :=
  extra.foldl (fun acc p => objSet acc p.1 p.2)
    [("content-length", toString body.length)]

/-- `getHeaders()` of each normalized body variant. Buffer and stream
bodies resolve immediately; the form body settles according to its
`getLength` callback. -/
def getHeadersOf : NormalizedBody → Option Settlement
  | .bufferBody bs extra => some (.resolved (bufferBodyHeaders bs extra))
  | .formBody f => formGetHeaders f
  | .streamBody _ => some (.resolved [])

/-- The header merge performed in `request`: for each body-derived header
key, `if (!headers.has(key)) headers.set(key, bodyHeaders[key])` through
`caseless` — caller-supplied headers win case-insensitively. -/
def mergeHeaders (caller bodyHeaders : HeaderMap) : HeaderMap :=
  bodyHeaders.foldl (fun acc p => if hasCI acc p.1 then acc else acc ++ [p]) caller

/-- JS values passed as the `method`, `url` or `options` arguments of the
public entry point (categorized by what the `typeof` checks observe). -/
inductive JsArg where
  | undef
  | nullv
  | str (s : String)
  | num (n : Int)
  | boolv (b : Bool)
  | obj (o : Options)

/-- `JsArg.isStr`: the `typeof x === 'string'` test. -/
def JsArg.isStr : JsArg → Bool
  | .str _ => true
  | _ => false

/-- Observable side effects of the dispatch, in chronological order:
the transport invocation (`basicRequest(method, url, {...headers...})`)
and the piping of the body into the request sink (`body.pipe(req)`). -/
inductive Event where
  | invokeTransport (method url : String) (headers : HeaderMap)
  | pipeBody
deriving DecidableEq

/-- How the future returned by `request` stands once the synchronous part
and the body's header resolution have run: rejected, transport invoked
(`dispatched` — final settlement then depends on the transport's
completion callback, outside this core), or still pending because the
form's `getLength` callback never fired. -/
inductive Outcome where
  | rejected (e : ErrVal)
  | dispatched
  | pendingHeaders
deriving DecidableEq

/-- The transport's observable contribution to the dispatch step: the
request sink returned by `basicRequest` (`none` models a null return). -/
structure Env where
  req : Option Nat
deriving DecidableEq

/-- Modelled from the spec: the query-string handler (`handle-qs`, a
repository module not present under `src/`) is a pure function appending
the serialized query parameters to the url. -/
def handleQs (url : String) (qs : List (String × String)) : String :=
  url ++ "?" ++ String.intercalate "&" (qs.map fun p => p.1 ++ "=" ++ p.2)

/-- The effective url: `if (options.qs) url = handleQs(url, options.qs)`
(a present `qs` object is truthy, even when empty). -/
def qsUrl (u : String) (q : Option (List (String × String))) : String :=
  match q with
  | some qs => handleQs u qs
  | none => u

/-- `!(method === 'GET' || method === 'DELETE' || method === 'HEAD')`. -/
def duplex (method : String) : Bool :=
  !(method == "GET" || method == "DELETE" || method == "HEAD")

/-- Result of running the executor of `request` on validated arguments:
the trace of observable events, the standing of the future, and the
final state of the `options` object (which the code may mutate). -/
structure RunResult where
  trace : List Event
  outcome : Outcome
  options : Options

/-- The executor body of `request` after argument validation: method
upper-cased, `options.headers = options.headers || {}`, query-string
rewrite, verb-based body legality, asynchronous header resolution and
case-insensitive merge, then transport invocation and body piping. -/
def runRequest (m u : String) (o : Options) (env : Env) : RunResult :=
  let m := toUpperStr m
  let headers0 := o.headers.getD []
  let o := { o with headers := some headers0 }
  let u := qsUrl u o.qs
  if duplex m then
    match handleBody o with
    | .error e => ⟨[], .rejected e, o⟩
    | .ok body =>
      match getHeadersOf body with
      | none => ⟨[], .pendingHeaders, o⟩
      | some (.rejected e) => ⟨[], .rejected e, o⟩
      | some (.resolved bodyHeaders) =>
        let merged := mergeHeaders headers0 bodyHeaders
        ⟨[.invokeTransport m u merged]
           ++ (if env.req.isSome then [.pipeBody] else []),
         .dispatched, { o with headers := some merged }⟩
  else if o.body.truthy then
    ⟨[], .rejected (.errObj ("You cannot pass a body to a " ++ m ++ " request.")), o⟩
  else
    ⟨[.invokeTransport m u headers0], .dispatched, o⟩

/-- Result of a call to the public entry point: the event trace, the
standing of the returned future, and the state of the caller's `options`
argument after the call. -/
structure ReqResult where
  trace : List Event
  outcome : Outcome
  optionsAfter : JsArg

/-- The public entry point `request(method, url, options)`. Argument
validation happens inside the promise executor, so a thrown `TypeError`
surfaces as a rejection of the returned future. A `null`/`undefined`
`options` is replaced by a fresh empty object (the caller's argument is
untouched); an object argument is the very object the executor works on
(and may mutate). -/
def request (method url optionsArg : JsArg) (env : Env) : ReqResult :=
  match method with
  | .str m =>
    match url with
    | .str u =>
      match optionsArg with
      | .undef =>
        let r := runRequest m u {} env
        ⟨r.trace, r.outcome, .undef⟩
      | .nullv =>
        let r := runRequest m u {} env
        ⟨r.trace, r.outcome, .nullv⟩
      | .obj o =>
        let r := runRequest m u o env
        ⟨r.trace, r.outcome, .obj r.options⟩
      | bad => ⟨[], .rejected (.typeErrObj "Options must be an object (or null)."), bad⟩
    | _ => ⟨[], .rejected (.typeErrObj "The URL/path must be a string."), optionsArg⟩
  | _ => ⟨[], .rejected (.typeErrObj "The method must be a string."), optionsArg⟩

/-! ### Helper lemmas -/

theorem mergeHeaders_nil (H : HeaderMap) : mergeHeaders H [] = H := rfl

theorem mergeHeaders_cons (H : HeaderMap) (b : String × String) (B : HeaderMap) :
    mergeHeaders H (b :: B) = mergeHeaders (if hasCI H b.1 then H else H ++ [b]) B := rfl

theorem hasCI_append (l t : HeaderMap) (k : String) :
    hasCI (l ++ t) k = (hasCI l k || hasCI t k) := by
  simp [hasCI, List.any_append]

theorem getCI_append_left {l : HeaderMap} {k : String} (h : hasCI l k = true)
    (t : HeaderMap) : getCI (l ++ t) k = getCI l k := by
  unfold getCI
  rw [List.find?_append]
  have hsome : (l.find? fun p => lowerEq p.1 k).isSome := by
    rw [List.find?_isSome]
    simpa [hasCI, List.any_eq_true] using h
  cases hf : l.find? fun p => lowerEq p.1 k with
  | none => rw [hf] at hsome; simp at hsome
  | some v => simp

theorem getCI_append_right {l : HeaderMap} {k : String} (h : hasCI l k = false)
    (t : HeaderMap) : getCI (l ++ t) k = getCI t k := by
  unfold getCI
  rw [List.find?_append]
  have hnone : l.find? (fun p => lowerEq p.1 k) = none := by
    cases hf : l.find? (fun p => lowerEq p.1 k) with
    | none => rfl
    | some v =>
      have hv := List.find?_some hf
      have hmem := List.mem_of_find?_eq_some hf
      have hl : hasCI l k = true := by
        rw [hasCI, List.any_eq_true]
        exact ⟨v, hmem, hv⟩
      rw [hl] at h
      cases h
  rw [hnone]
  simp

theorem mergeHeaders_getCI_of_hasCI :
    ∀ (B H : HeaderMap) (k : String), hasCI H k = true →
      getCI (mergeHeaders H B) k = getCI H k := by
  intro B
  induction B with
  | nil => intro H k _; rfl
  | cons b B ih =>
    intro H k h
    rw [mergeHeaders_cons]
    by_cases hb : hasCI H b.1 = true
    · rw [if_pos hb]
      exact ih H k h
    · rw [if_neg hb]
      have h' : hasCI (H ++ [b]) k = true := by
        rw [hasCI_append, h, Bool.true_or]
      rw [ih (H ++ [b]) k h']
      exact getCI_append_left h [b]

theorem mergeHeaders_mem :
    ∀ (B H : HeaderMap) (kv : String × String), kv ∈ mergeHeaders H B →
      kv ∈ H ∨ (kv ∈ B ∧ hasCI H kv.1 = false) := by
  intro B
  induction B with
  | nil => intro H kv h; exact .inl h
  | cons b B ih =>
    intro H kv h
    rw [mergeHeaders_cons] at h
    by_cases hb : hasCI H b.1 = true
    · rw [if_pos hb] at h
      rcases ih H kv h with h1 | ⟨h1, h2⟩
      · exact .inl h1
      · exact .inr ⟨List.mem_cons_of_mem _ h1, h2⟩
    · rw [if_neg hb] at h
      rcases ih (H ++ [b]) kv h with h1 | ⟨h1, h2⟩
      · rcases List.mem_append.1 h1 with h3 | h3
        · exact .inl h3
        · have hkv : kv = b := by simpa using h3
          subst hkv
          exact .inr ⟨List.mem_cons_self _ _, by simpa using hb⟩
      · refine .inr ⟨List.mem_cons_of_mem _ h1, ?_⟩
        rw [hasCI_append] at h2
        exact (Bool.or_eq_false_iff.1 h2).1

theorem mergeHeaders_exists_append :
    ∀ (B H : HeaderMap), ∃ extra, mergeHeaders H B = H ++ extra := by
  intro B
  induction B with
  | nil => intro H; exact ⟨[], by simp [mergeHeaders_nil]⟩
  | cons b B ih =>
    intro H
    rw [mergeHeaders_cons]
    by_cases hb : hasCI H b.1 = true
    · rw [if_pos hb]; exact ih H
    · rw [if_neg hb]
      obtain ⟨extra, hex⟩ := ih (H ++ [b])
      exact ⟨b :: extra, by simpa using hex⟩

theorem foldl_glStep_of_gotLength (h : HeaderMap) :
    ∀ (l : List (ErrVal × Int)) (st : GLState), st.gotLength = true →
      l.foldl (glStep h) st = st := by
  intro l
  induction l with
  | nil => intro st _; rfl
  | cons e l ih =>
    intro st hst
    rw [List.foldl_cons, show glStep h st e = st from by simp [glStep, hst]]
    exact ih st hst

/-- Characterization of `runRequest` on an options record with named
fields (the definition restated with the record update and projections
resolved); holds by unfolding. -/
theorem runRequest_eq (m u : String) (b : BodyVal) (j : JsonVal) (f : Option FormVal)
    (hs : Option HeaderMap) (q : Option (List (String × String))) (env : Env) :
    runRequest m u ⟨b, j, f, hs, q⟩ env =
      if duplex (toUpperStr m) then
        match handleBody ⟨b, j, f, some (hs.getD []), q⟩ with
        | .error e => ⟨[], .rejected e, ⟨b, j, f, some (hs.getD []), q⟩⟩
        | .ok body =>
          match getHeadersOf body with
          | none => ⟨[], .pendingHeaders, ⟨b, j, f, some (hs.getD []), q⟩⟩
          | some (.rejected e) => ⟨[], .rejected e, ⟨b, j, f, some (hs.getD []), q⟩⟩
          | some (.resolved bh) =>
            ⟨[.invokeTransport (toUpperStr m) (qsUrl u q)
                (mergeHeaders (hs.getD []) bh)]
               ++ (if env.req.isSome then [.pipeBody] else []),
             .dispatched, ⟨b, j, f, some (mergeHeaders (hs.getD []) bh), q⟩⟩
      else if b.truthy then
        ⟨[], .rejected (.errObj ("You cannot pass a body to a " ++ toUpperStr m ++ " request.")),
         ⟨b, j, f, some (hs.getD []), q⟩⟩
      else
        ⟨[.invokeTransport (toUpperStr m) (qsUrl u q) (hs.getD [])],
         .dispatched, ⟨b, j, f, some (hs.getD []), q⟩⟩ := rfl

/-! ### Claims -/

/-- C2: for every caller header map `H` and body-derived header map `B`,
every key present in `H` under case-insensitive comparison keeps `H`'s
value in the merged map, and body-derived entries are added only for
keys not already present in `H` (case-insensitively). -/
theorem c2_caller_headers_win :
    ∀ (H B : HeaderMap) (k : String),
      (hasCI H k = true → getCI (mergeHeaders H B) k = getCI H k) ∧
      (∀ kv, kv ∈ mergeHeaders H B → kv ∈ H ∨ (kv ∈ B ∧ hasCI H kv.1 = false)) := by
  intro H B k
  exact ⟨fun h => mergeHeaders_getCI_of_hasCI B H k h,
         fun kv h => mergeHeaders_mem B H kv h⟩

/-- Witness for C2 at concrete header maps sharing the key
`content-type` under differing casings. -/
theorem c2_caller_headers_win_witness :
    hasCI [("Content-Type", "text/plain")] "content-type" = true ∧
    getCI (mergeHeaders [("Content-Type", "text/plain")]
        [("content-length", "7"), ("content-type", "application/json")]) "content-type" =
      getCI [("Content-Type", "text/plain")] "content-type" := by
  refine ⟨by decide, ?_⟩
  exact (c2_caller_headers_win [("Content-Type", "text/plain")]
    [("content-length", "7"), ("content-type", "application/json")] "content-type").1
    (by decide)

/-- C3: a truthy error handed to the form's `getLength` callback makes
`FormBody.getHeaders` reject with an error object (a string error is
wrapped into an `Error`, never propagated as a raw string), and the
promise settles at most once: only the first callback invocation counts,
whatever success/failure events follow. -/
theorem c3_form_length_failure_settles_once :
    ∀ (hs : HeaderMap) (rest : List (ErrVal × Int)),
      (∀ (e : ErrVal) (n : Int), e.truthy = true →
        ((∃ s, e = .str s) ∨ e.isErrorObject = true) →
        formGetHeaders ⟨hs, (e, n) :: rest⟩ = some (.rejected (wrapErr e)) ∧
          (wrapErr e).isErrorObject = true) ∧
      (∀ (ev : ErrVal × Int), formGetHeaders ⟨hs, ev :: rest⟩ = formGetHeaders ⟨hs, [ev]⟩) := by
  intro hs rest
  constructor
  · intro e n htr hse
    constructor
    · unfold formGetHeaders
      simp only [List.foldl_cons]
      rw [show glStep hs ⟨false, none⟩ (e, n) = ⟨true, some (.rejected (wrapErr e))⟩ from by
        simp [glStep, htr]]
      rw [foldl_glStep_of_gotLength hs rest _ rfl]
    · rcases hse with ⟨s, rfl⟩ | h
      · rfl
      · cases e <;> simp_all [ErrVal.isErrorObject, wrapErr]
  · intro ev
    unfold formGetHeaders
    simp only [List.foldl_cons, List.foldl_nil]
    have hg : (glStep hs ⟨false, none⟩ ev).gotLength = true := by
      simp [glStep]
    rw [foldl_glStep_of_gotLength hs rest _ hg]

/-- Witness for C3: a string error `"boom"` on the first callback
invocation, with a later success invocation that is ignored. -/
theorem c3_form_length_failure_settles_once_witness :
    ErrVal.truthy (.str "boom") = true ∧
    formGetHeaders ⟨[], [(.str "boom", 0), (.nullv, 7)]⟩ =
      some (.rejected (.errObj "boom")) ∧
    ErrVal.isErrorObject (.errObj "boom") = true := by
  refine ⟨by decide, ?_⟩
  have h := (c3_form_length_failure_settles_once [] [(.nullv, 7)]).1 (.str "boom") 0
    (by decide) (.inl ⟨"boom", rfl⟩)
  exact ⟨h.1, h.2⟩

/-- C4: with no `body`/`json`/`form` supplied, the body selector yields a
buffer body over the empty byte sequence, its resolved headers carry
`content-length: 0`, and for a duplex verb the transport is invoked with
those merged headers (the body is not omitted). -/
theorem c4_duplex_absent_body_has_content_length_zero :
    ∀ (m u : String) (hs : Option HeaderMap) (env : Env),
      duplex (toUpperStr m) = true →
      handleBody { body := .undef, json := .jundef, form := none, headers := hs, qs := none } =
          .ok (.bufferBody [] []) ∧
      getHeadersOf (.bufferBody [] []) = some (.resolved [("content-length", "0")]) ∧
      Event.invokeTransport (toUpperStr m) u
          (mergeHeaders (hs.getD []) [("content-length", "0")]) ∈
        (request (.str m) (.str u)
          (.obj { body := .undef, json := .jundef, form := none, headers := hs, qs := none })
          env).trace := by
  intro m u hs env hdup
  refine ⟨rfl, rfl, ?_⟩
  show Event.invokeTransport _ _ _ ∈ (runRequest m u _ env).trace
  unfold runRequest
  rw [if_pos hdup]
  exact List.mem_cons_self _ _

/-- Witness for C4 with the duplex verb `PUT` and no caller headers. -/
theorem c4_duplex_absent_body_has_content_length_zero_witness :
    duplex (toUpperStr "PUT") = true ∧
    Event.invokeTransport (toUpperStr "PUT") "http://example.com/"
        (mergeHeaders ((none : Option HeaderMap).getD []) [("content-length", "0")]) ∈
      (request (.str "PUT") (.str "http://example.com/")
        (.obj { body := .undef, json := .jundef, form := none, headers := none, qs := none })
        ⟨some 0⟩).trace := by
  refine ⟨by decide, ?_⟩
  exact (c4_duplex_absent_body_has_content_length_zero "PUT" "http://example.com/" none
    ⟨some 0⟩ (by decide)).2.2

/-- C5: `json: {a:1}` (with no form) selects a buffer body whose bytes
are the UTF-8 encoding of `JSON.stringify({a:1})`, whose resolved
headers carry that byte length and `content-type: application/json`, and
after the merge the `content-type` seen case-insensitively is the
caller's own value when the caller set one, `application/json`
otherwise. -/
theorem c5_json_body_and_content_type :
    ∀ (b : BodyVal) (hs : Option HeaderMap) (qs : Option (List (String × String)))
      (caller : HeaderMap),
      handleBody { body := b, json := .jobjv [("a", .jnum 1)], form := none, headers := hs, qs := qs } =
        .ok (.bufferBody (utf8Bytes "\x7b\"a\":1\x7d")
          [("content-type", "application/json")]) ∧
      getHeadersOf (.bufferBody (utf8Bytes "\x7b\"a\":1\x7d")
          [("content-type", "application/json")]) =
        some (.resolved [("content-length", toString (utf8Bytes "\x7b\"a\":1\x7d").length),
                         ("content-type", "application/json")]) ∧
      getCI (mergeHeaders caller
          [("content-length", toString (utf8Bytes "\x7b\"a\":1\x7d").length),
           ("content-type", "application/json")]) "content-type" =
        (if hasCI caller "content-type" then getCI caller "content-type"
         else some "application/json") := by
  intro b hs qs caller
  refine ⟨rfl, rfl, ?_⟩
  by_cases hct : hasCI caller "content-type" = true
  · rw [if_pos hct]
    exact mergeHeaders_getCI_of_hasCI _ _ _ hct
  · rw [if_neg hct]
    have hct' : hasCI caller "content-type" = false := by simpa using hct
    rw [mergeHeaders_cons, mergeHeaders_cons]
    by_cases hcl : hasCI caller "content-length" = true
    · rw [if_pos hcl]
      rw [if_neg (by simp [hct'])]
      rw [mergeHeaders_nil]
      rw [getCI_append_right hct']
      decide
    · rw [if_neg hcl]
      have h1 : hasCI (caller ++ [("content-length",
          toString (utf8Bytes "\x7b\"a\":1\x7d").length)]) "content-type" = false := by
        rw [hasCI_append, hct']
        decide
      rw [if_neg (by simp [h1])]
      rw [mergeHeaders_nil]
      rw [getCI_append_right h1]
      decide

/-- C6: a stream body (non-buffer value with a `pipe` function) is
selected as the stream variant, whose `getHeaders` resolves immediately
with the empty header map, so no `content-length` is ever derived from
the body. -/
theorem c6_stream_body_no_content_length :
    ∀ (sid : Nat) (hs : Option HeaderMap) (qs : Option (List (String × String))),
      handleBody { body := .stream sid, json := .jundef, form := none, headers := hs, qs := qs } = .ok (.streamBody sid) ∧
      getHeadersOf (.streamBody sid) = some (.resolved []) ∧
      getCI ([] : HeaderMap) "content-length" = none := by
  intro sid hs qs
  exact ⟨rfl, rfl, rfl⟩

/-- C10: a falsy `json` is treated as absent (no serialization, no
`content-type`, the body falls through to `options.body`), and a falsy
body is replaced by the zero-length byte sequence, yielding the empty
buffer variant. -/
theorem c10_falsy_json_falsy_body :
    ∀ (b : BodyVal) (j : JsonVal) (hs : Option HeaderMap)
      (qs : Option (List (String × String))),
      j.truthy = false →
      (handleBody { body := b, json := j, form := none, headers := hs, qs := qs } =
        handleBody { body := b, json := .jundef, form := none, headers := hs, qs := qs }) ∧
      (b.truthy = false →
        handleBody { body := b, json := j, form := none, headers := hs, qs := qs } =
          .ok (.bufferBody [] [])) := by
  intro b j hs qs hj
  have h1 : handleBody { body := b, json := j, form := none, headers := hs, qs := qs } =
      handleBody { body := b, json := .jundef, form := none, headers := hs, qs := qs } := by
    cases j with
    | jundef => rfl
    | jnull => rfl
    | jbool bb =>
      have hb0 : bb = false := by simpa [JsonVal.truthy] using hj
      subst hb0; rfl
    | jnum n =>
      have hn0 : n = 0 := by simpa [JsonVal.truthy] using hj
      subst hn0; rfl
    | jstr s =>
      have hs0 : s = "" := by simpa [JsonVal.truthy] using hj
      subst hs0; rfl
    | jobjv fields => simp [JsonVal.truthy] at hj
  refine ⟨h1, fun hb => ?_⟩
  rw [h1]
  cases b with
  | str s =>
    have hs0 : s = "" := by simpa [BodyVal.truthy] using hb
    subst hs0; rfl
  | undef => rfl
  | nullv => rfl
  | boolv bb =>
    cases bb with
    | false => rfl
    | true => simp [BodyVal.truthy] at hb
  | num n =>
    have hn : n = 0 := by simpa [BodyVal.truthy] using hb
    subst hn; rfl
  | buffer bs => simp [BodyVal.truthy] at hb
  | stream i => simp [BodyVal.truthy] at hb
  | objNoPipe i => simp [BodyVal.truthy] at hb

/-- Witness for C10 at `json: 0` and `body: 0`. -/
theorem c10_falsy_json_falsy_body_witness :
    JsonVal.truthy (.jnum 0) = false ∧ BodyVal.truthy (.num 0) = false ∧
    handleBody { body := .num 0, json := .jnum 0, form := none, headers := none, qs := none } =
      .ok (.bufferBody [] []) := by
  refine ⟨by decide, by decide, ?_⟩
  exact (c10_falsy_json_falsy_body (.num 0) (.jnum 0) none none (by decide)).2 (by decide)

/-- C1 counterexample: supplying `json: {a:1}` (with no `body`) to a
`GET` request does not reject and the transport is invoked — the
bodyless-verb guard tests only `options.body`, so `json`/`form` alone
are silently ignored. -/
theorem c1_bodyless_json_counterexample :
    (request (.str "GET") (.str "u")
        (.obj { body := .undef, json := .jobjv [("a", .jnum 1)], form := none, headers := none, qs := none })
        ⟨none⟩).outcome = .dispatched ∧
    Event.invokeTransport "GET" "u" [] ∈
      (request (.str "GET") (.str "u")
        (.obj { body := .undef, json := .jobjv [("a", .jnum 1)], form := none, headers := none, qs := none })
        ⟨none⟩).trace := by
  exact ⟨rfl, by decide⟩

/-- C1 amended: for a bodyless verb (`GET`/`DELETE`/`HEAD`) the rejection
fires exactly when `options.body` is truthy — then the future rejects
with "You cannot pass a body to a <METHOD> request." and the transport
is never invoked; when `body` is not truthy (even if `json` or `form`
was supplied) no rejection occurs and the transport is invoked. -/
theorem c1_bodyless_verb_truthy_body_rejects :
    ∀ (m u : String) (o : Options) (env : Env),
      duplex (toUpperStr m) = false →
      (o.body.truthy = true →
        (request (.str m) (.str u) (.obj o) env).outcome =
          .rejected (.errObj ("You cannot pass a body to a " ++ toUpperStr m ++ " request.")) ∧
        (request (.str m) (.str u) (.obj o) env).trace = []) ∧
      (o.body.truthy = false →
        (request (.str m) (.str u) (.obj o) env).outcome = .dispatched) := by
  intro m u o env hdup
  obtain ⟨b, j, f, hs, q⟩ := o
  constructor
  · intro hb
    simp only [request]
    rw [runRequest_eq, if_neg (by simp [hdup]), if_pos hb]
    exact ⟨rfl, rfl⟩
  · intro hb
    simp only [request]
    rw [runRequest_eq, if_neg (by simp [hdup]), if_neg (by simp [hb])]

/-- Witness for the amended C1: `GET` with a truthy string body. -/
theorem c1_bodyless_verb_truthy_body_rejects_witness :
    duplex (toUpperStr "get") = false ∧ BodyVal.truthy (.str "x") = true ∧
    (request (.str "get") (.str "u") (.obj { body := .str "x" }) ⟨none⟩).outcome =
      .rejected (.errObj ("You cannot pass a body to a " ++ toUpperStr "get" ++ " request.")) := by
  refine ⟨by decide, by decide, ?_⟩
  exact ((c1_bodyless_verb_truthy_body_rejects "get" "u" { body := .str "x" } ⟨none⟩
    (by decide)).1 (by decide)).1

/-- Whether a body value has one of the recognized shapes: a buffer, a
string, or a stream-like value exposing `pipe`. -/
def BodyVal.isRecognizedShape : BodyVal → Bool
  | .buffer _ => true
  | .str _ => true
  | .stream _ => true
  | _ => false

/-- C7: a non-string `method`, a non-string `url`, a non-object non-null
`options`, and an unrecognized (truthy, non-buffer, non-string,
non-stream) body shape each surface as a rejection of the returned
future carrying the corresponding type error (the executor's throw is
caught by the promise constructor, never thrown past the entry
point). -/
theorem c7_usage_errors_reject :
    (∀ (method url opts : JsArg) (env : Env), method.isStr = false →
      (request method url opts env).outcome =
        .rejected (.typeErrObj "The method must be a string.")) ∧
    (∀ (m : String) (url opts : JsArg) (env : Env), url.isStr = false →
      (request (.str m) url opts env).outcome =
        .rejected (.typeErrObj "The URL/path must be a string.")) ∧
    (∀ (m u : String) (env : Env) (n : Int) (bb : Bool) (s : String),
      (request (.str m) (.str u) (.num n) env).outcome =
        .rejected (.typeErrObj "Options must be an object (or null).") ∧
      (request (.str m) (.str u) (.boolv bb) env).outcome =
        .rejected (.typeErrObj "Options must be an object (or null).") ∧
      (request (.str m) (.str u) (.str s) env).outcome =
        .rejected (.typeErrObj "Options must be an object (or null).")) ∧
    (∀ (m u : String) (b : BodyVal) (hs : Option HeaderMap)
      (q : Option (List (String × String))) (env : Env),
      duplex (toUpperStr m) = true → b.truthy = true → b.isRecognizedShape = false →
      (request (.str m) (.str u)
          (.obj { body := b, json := .jundef, form := none, headers := hs, qs := q })
          env).outcome =
        .rejected (.typeErrObj "body should be a Buffer or a String")) := by
  refine ⟨?_, ?_, ?_, ?_⟩
  · intro method url opts env hm
    cases method <;> simp_all [JsArg.isStr] <;> rfl
  · intro m url opts env hu
    cases url <;> simp_all [JsArg.isStr] <;> rfl
  · intro m u env n bb s
    exact ⟨rfl, rfl, rfl⟩
  · intro m u b hs q env hdup hb hrec
    simp only [request]
    rw [runRequest_eq, if_pos hdup]
    have hhb : handleBody ⟨b, .jundef, none, some (hs.getD []), q⟩ =
        .error (.typeErrObj "body should be a Buffer or a String") := by
      cases b with
      | num n =>
        have hn : (n == 0) = false := by simpa [BodyVal.truthy] using hb
        unfold handleBody
        simp [JsonVal.truthy, BodyVal.truthy, hn]
      | boolv bb =>
        have hbb : bb = true := by simpa [BodyVal.truthy] using hb
        subst hbb; rfl
      | objNoPipe i => rfl
      | undef => simp [BodyVal.truthy] at hb
      | nullv => simp [BodyVal.truthy] at hb
      | str s => simp [BodyVal.isRecognizedShape] at hrec
      | buffer bs => simp [BodyVal.isRecognizedShape] at hrec
      | stream i => simp [BodyVal.isRecognizedShape] at hrec
    rw [hhb]

/-- Witness for C7: one concrete instance of each usage error. -/
theorem c7_usage_errors_reject_witness :
    (request (.num 5) (.str "u") .undef ⟨none⟩).outcome =
      .rejected (.typeErrObj "The method must be a string.") ∧
    (request (.str "GET") .nullv .undef ⟨none⟩).outcome =
      .rejected (.typeErrObj "The URL/path must be a string.") ∧
    (request (.str "GET") (.str "u") (.num 0) ⟨none⟩).outcome =
      .rejected (.typeErrObj "Options must be an object (or null).") ∧
    (request (.str "POST") (.str "u")
        (.obj { body := .objNoPipe 0, json := .jundef, form := none, headers := none, qs := none })
        ⟨none⟩).outcome =
      .rejected (.typeErrObj "body should be a Buffer or a String") := by
  refine ⟨?_, ?_, ?_, ?_⟩
  · exact c7_usage_errors_reject.1 (.num 5) (.str "u") .undef ⟨none⟩ (by decide)
  · exact c7_usage_errors_reject.2.1 "GET" .nullv .undef ⟨none⟩ (by decide)
  · exact (c7_usage_errors_reject.2.2.1 "GET" "u" ⟨none⟩ 0 false "").1
  · exact c7_usage_errors_reject.2.2.2 "POST" "u" (.objNoPipe 0) none none ⟨none⟩
      (by decide) (by decide) (by decide)

/-- Reduction of `runRequest` for a duplex verb once the body selector
has succeeded: the outcome is governed by the body's header
resolution. -/
theorem runRequest_duplex_ok (m u : String) (b : BodyVal) (j : JsonVal) (f : Option FormVal)
    (hs : Option HeaderMap) (q : Option (List (String × String))) (env : Env)
    (body : NormalizedBody) (hdup : duplex (toUpperStr m) = true)
    (hbody : handleBody ⟨b, j, f, some (hs.getD []), q⟩ = .ok body) :
    runRequest m u ⟨b, j, f, hs, q⟩ env =
      match getHeadersOf body with
      | none => ⟨[], .pendingHeaders, ⟨b, j, f, some (hs.getD []), q⟩⟩
      | some (.rejected e) => ⟨[], .rejected e, ⟨b, j, f, some (hs.getD []), q⟩⟩
      | some (.resolved bh) =>
        ⟨[.invokeTransport (toUpperStr m) (qsUrl u q)
            (mergeHeaders (hs.getD []) bh)]
           ++ (if env.req.isSome then [.pipeBody] else []),
         .dispatched, ⟨b, j, f, some (mergeHeaders (hs.getD []) bh), q⟩⟩ := by
  rw [runRequest_eq, if_pos hdup, hbody]

/-- C8: for a duplex request whose body selection succeeds, the
transport is invoked only when the body's header resolution has settled
successfully (on failure it is never invoked and the future rejects with
that error); the body is piped only when the transport returned a
non-null sink, and any pipe event in the trace is preceded by the
transport invocation. -/
theorem c8_transport_after_headers_pipe_after_sink :
    ∀ (m u : String) (o : Options) (env : Env) (body : NormalizedBody),
      duplex (toUpperStr m) = true →
      handleBody { o with headers := some (o.headers.getD []) } = .ok body →
      (∀ e, getHeadersOf body = some (.rejected e) →
        (request (.str m) (.str u) (.obj o) env).outcome = .rejected e ∧
        (request (.str m) (.str u) (.obj o) env).trace = []) ∧
      (Event.pipeBody ∈ (request (.str m) (.str u) (.obj o) env).trace →
        env.req.isSome = true) ∧
      (∀ l1 l2, (request (.str m) (.str u) (.obj o) env).trace = l1 ++ Event.pipeBody :: l2 →
        ∃ hm, Event.invokeTransport (toUpperStr m) (qsUrl u o.qs) hm ∈ l1) ∧
      ((∃ mm uu hm, Event.invokeTransport mm uu hm ∈
          (request (.str m) (.str u) (.obj o) env).trace) →
        ∃ h, getHeadersOf body = some (.resolved h)) := by
  intro m u o env body hdup hbody
  obtain ⟨b, j, f, hs, q⟩ := o
  have hbody2 : handleBody ⟨b, j, f, some (hs.getD []), q⟩ = .ok body := hbody
  have hr := runRequest_duplex_ok m u b j f hs q env body hdup hbody2
  cases hgh : getHeadersOf body with
  | none =>
    have ht3 : (request (.str m) (.str u) (.obj (⟨b, j, f, hs, q⟩ : Options)) env).trace = [] := by
      show (runRequest m u ⟨b, j, f, hs, q⟩ env).trace = []
      rw [hr, hgh]
    refine ⟨?_, ?_, ?_, ?_⟩
    · intro e he
      exact Option.noConfusion he
    · intro h
      rw [ht3] at h
      simp at h
    · intro l1 l2 h
      rw [ht3] at h
      exact absurd h.symm (by simp)
    · rintro ⟨mm, uu, hm, hmem⟩
      rw [ht3] at hmem
      simp at hmem
  | some s =>
    cases s with
    | rejected e2 =>
      have ht3 : (request (.str m) (.str u) (.obj (⟨b, j, f, hs, q⟩ : Options)) env).trace = [] := by
        show (runRequest m u ⟨b, j, f, hs, q⟩ env).trace = []
        rw [hr, hgh]
      have ho3 : (request (.str m) (.str u) (.obj (⟨b, j, f, hs, q⟩ : Options)) env).outcome =
          .rejected e2 := by
        show (runRequest m u ⟨b, j, f, hs, q⟩ env).outcome = _
        rw [hr, hgh]
      refine ⟨?_, ?_, ?_, ?_⟩
      · intro e he
        have he2 : Settlement.rejected e2 = .rejected e := Option.some.inj he
        injection he2 with he3
        subst he3
        exact ⟨ho3, ht3⟩
      · intro h
        rw [ht3] at h
        simp at h
      · intro l1 l2 h
        rw [ht3] at h
        exact absurd h.symm (by simp)
      · rintro ⟨mm, uu, hm, hmem⟩
        rw [ht3] at hmem
        simp at hmem
    | resolved bh =>
      have ht3 : (request (.str m) (.str u) (.obj (⟨b, j, f, hs, q⟩ : Options)) env).trace =
          Event.invokeTransport (toUpperStr m) (qsUrl u q)
              (mergeHeaders (hs.getD []) bh) ::
            (if env.req.isSome then [Event.pipeBody] else []) := by
        show (runRequest m u ⟨b, j, f, hs, q⟩ env).trace = _
        rw [hr, hgh]
        rfl
      refine ⟨?_, ?_, ?_, ?_⟩
      · intro e he
        simp at he
      · intro h
        rw [ht3] at h
        by_cases hreq : env.req.isSome = true
        · exact hreq
        · rw [if_neg hreq] at h
          simp at h
      · intro l1 l2 h
        rw [ht3] at h
        cases l1 with
        | nil =>
          rw [List.nil_append] at h
          exact Event.noConfusion (List.cons.inj h).1
        | cons a l1x =>
          rw [List.cons_append] at h
          have h1 := (List.cons.inj h).1
          refine ⟨mergeHeaders (hs.getD []) bh, ?_⟩
          rw [← h1]
          exact List.mem_cons_self _ _
      · intro _
        exact ⟨bh, rfl⟩

/-- Witness for C8: a `PUT` with a one-byte buffer body and a transport
returning a sink. -/
theorem c8_transport_after_headers_pipe_after_sink_witness :
    duplex (toUpperStr "PUT") = true ∧
    handleBody { body := .buffer [104], json := .jundef, form := none, headers := some [], qs := none } =
      .ok (.bufferBody [104] []) ∧
    (Event.pipeBody ∈ (request (.str "PUT") (.str "u")
        (.obj { body := .buffer [104], json := .jundef, form := none, headers := some [], qs := none })
        ⟨some 0⟩).trace →
      (Option.some 0).isSome = true) := by
  refine ⟨by decide, by decide, ?_⟩
  exact (c8_transport_after_headers_pipe_after_sink "PUT" "u"
    { body := .buffer [104], json := .jundef, form := none, headers := some [], qs := none }
    ⟨some 0⟩ (.bufferBody [104] []) (by decide) (by decide)).2.1

/-- C9 counterexample: a `POST` with an empty buffer body and
`headers: {}` gets `content-length: 0` written into the caller's
headers object — `options` is not left unmutated. -/
theorem c9_options_mutated_counterexample :
    (request (.str "POST") (.str "u")
        (.obj { body := .buffer [], json := .jundef, form := none, headers := some [], qs := none })
        ⟨none⟩).optionsAfter ≠
      .obj { body := .buffer [], json := .jundef, form := none, headers := some [], qs := none } := by
  intro h
  exact (by decide : (some [("content-length", "0")] : Option HeaderMap) ≠ some [])
    (congrArg (fun a => match a with | JsArg.obj o => o.headers | _ => none) h)

/-- C9 amended: `request` leaves every field of the caller's options
object except `headers` unchanged; `headers` is set to the original
header map (or a fresh empty one when absent), possibly extended by
appended body-derived entries. -/
theorem c9_only_headers_mutated :
    ∀ (m u : String) (o : Options) (env : Env),
      ∃ h extra, (request (.str m) (.str u) (.obj o) env).optionsAfter =
        .obj { o with headers := some h } ∧ h = o.headers.getD [] ++ extra := by
  intro m u o env
  obtain ⟨b, j, f, hs, q⟩ := o
  have hopt : (request (.str m) (.str u) (.obj (⟨b, j, f, hs, q⟩ : Options)) env).optionsAfter =
      .obj (runRequest m u ⟨b, j, f, hs, q⟩ env).options := rfl
  by_cases hdup : duplex (toUpperStr m) = true
  · cases hhb : handleBody ⟨b, j, f, some (hs.getD []), q⟩ with
    | error e =>
      have hoo : (runRequest m u ⟨b, j, f, hs, q⟩ env).options =
          ⟨b, j, f, some (hs.getD []), q⟩ := by
        rw [runRequest_eq, if_pos hdup, hhb]
      exact ⟨hs.getD [], [], by rw [hopt, hoo], by simp⟩
    | ok body =>
      have hr := runRequest_duplex_ok m u b j f hs q env body hdup hhb
      cases hgh : getHeadersOf body with
      | none =>
        have hoo : (runRequest m u ⟨b, j, f, hs, q⟩ env).options =
            ⟨b, j, f, some (hs.getD []), q⟩ := by
          rw [hr, hgh]
        exact ⟨hs.getD [], [], by rw [hopt, hoo], by simp⟩
      | some s =>
        cases s with
        | rejected e =>
          have hoo : (runRequest m u ⟨b, j, f, hs, q⟩ env).options =
              ⟨b, j, f, some (hs.getD []), q⟩ := by
            rw [hr, hgh]
          exact ⟨hs.getD [], [], by rw [hopt, hoo], by simp⟩
        | resolved bh =>
          have hoo : (runRequest m u ⟨b, j, f, hs, q⟩ env).options =
              ⟨b, j, f, some (mergeHeaders (hs.getD []) bh), q⟩ := by
            rw [hr, hgh]
          obtain ⟨extra, hex⟩ := mergeHeaders_exists_append bh (hs.getD [])
          exact ⟨mergeHeaders (hs.getD []) bh, extra, by rw [hopt, hoo], hex⟩
  · by_cases hb : b.truthy = true
    · have hoo : (runRequest m u ⟨b, j, f, hs, q⟩ env).options =
          ⟨b, j, f, some (hs.getD []), q⟩ := by
        rw [runRequest_eq, if_neg hdup, if_pos hb]
      exact ⟨hs.getD [], [], by rw [hopt, hoo], by simp⟩
    · have hoo : (runRequest m u ⟨b, j, f, hs, q⟩ env).options =
          ⟨b, j, f, some (hs.getD []), q⟩ := by
        rw [runRequest_eq, if_neg hdup, if_neg hb]
      exact ⟨hs.getD [], [], by rw [hopt, hoo], by simp⟩

end ThenRequest
